import Mathlib

/-!
Verification of the merge-and-export pipeline of the PYTHIA analysis
scripts (mergetuple.C, mergemacro.C, drawTuple.C), as a shallow
embedding: ROOT files are modelled as in-memory structures, float
values as rationals, and the macros as pure functions over them.
A file that cannot be opened, or a lookup that returns a null pointer
that the macro then dereferences, is modelled as `none` (a fatal end
of the run).
-/

/-- One row of the `dijetNtuple` table, the 10-field schema of
mergetuple.C (branch values are floats; modelled as rationals). -/
structure Row where
  eventNum : ℚ
  dijetMass : ℚ
  leadingJetPt : ℚ
  subleadingJetPt : ℚ
  deltaPhi : ℚ
  deltaEta : ℚ
  x1 : ℚ
  x2 : ℚ
  parton1Id : ℚ
  parton2Id : ℚ
deriving DecidableEq

/-- The inner loop of mergetuple.C over the list of file indices: each
index is resolved through `store` (the directory of per-run files;
`none` means the file cannot be opened or has no `dijetNtuple`, which
the macro dereferences fatally), and the rows of every source are
appended in order. -/
def mergetupleLoop (store : Nat → Option (List Row)) : List Nat → Option (List Row)
  | [] => some []
  | i :: is =>
    match store i with
    | none => none
    | some rows => (mergetupleLoop store is).map (fun rest => rows ++ rest)

/-- mergetuple.C: loop i = start..stop over `AnalysisResults<i>.root`,
concatenating every source's `dijetNtuple` rows into `mergedNtuple`. -/
def mergetuple (start stop : Nat) (store : Nat → Option (List Row)) : Option (List Row) :=
  mergetupleLoop store (List.range' start (stop + 1 - start))

/-- A histogram: accumulated bin contents plus the entry count, the
data `TH1::Add` combines. -/
structure Hist where
  bins : List ℚ
  entries : ℚ
deriving DecidableEq

/-- One key of a ROOT file: object name, class name, and the stored
histogram payload (non-histogram keys carry an ignored payload and an
unrecognized class name). -/
structure HKey where
  name : String
  className : String
  hist : Hist
deriving DecidableEq

/-- The class-name test of mergemacro.C: only TH1F, TH1D and TH2D keys
are processed, every other key is skipped by `continue`. -/
def recognized (c : String) : Bool :=
  c == "TH1F" || c == "TH1D" || c == "TH2D"

/-- `file->Get(name)`: the first key of the file with the given name,
or `none` when the file has no such key. -/
def fileGet (f : List HKey) (n : String) : Option Hist :=
  (f.find? (fun k => k.name == n)).map (fun k => k.hist)

/-- `TH1::Add`: bin-wise addition of contents and addition of the
entry counts; with a different number of bins `Add` reports an error
and leaves the accumulator unchanged. -/
def addHist (a b : Hist) : Hist :=
  if a.bins.length = b.bins.length then
    ⟨List.zipWith (fun x y => x + y) a.bins b.bins, a.entries + b.entries⟩
  else a

/-- One iteration of the per-histogram inner loop of mergemacro.C: an
unopenable file (`none`) is logged and skipped, a file lacking the
histogram is logged and contributes nothing, otherwise the histogram
is added into the accumulator. -/
def mergeStep (n : String) (acc : Hist) (g : Option (List HKey)) : Hist :=
  match g with
  | none => acc
  | some f =>
    match fileGet f n with
    | none => acc
    | some h => addHist acc h

/-- The inner loop of mergemacro.C for one histogram name, folded over
the files with index 1 and upward. -/
def mergeOne (h0 : Hist) (n : String) (rest : List (Option (List HKey))) : Hist :=
  rest.foldl (mergeStep n) h0

/-- The key loop of mergemacro.C: every key of source 0 of a recognized
histogram class is looked up by name in source 0 (seeding the
accumulator), merged across the remaining files, and written out; a
failed seed lookup is logged and skipped. -/
def mergeKeys (f0 l : List HKey) (rest : List (Option (List HKey))) : List HKey :=
  l.filterMap (fun k =>
    if recognized k.className then
      match fileGet f0 k.name with
      | none => none
      | some h0 => some ⟨k.name, k.className, mergeOne h0 k.name rest⟩
    else none)

/-- mergemacro.C as a whole: with an empty file list the macro indexes
`fileNames[0]` out of bounds (fatal, `none`); when source 0 cannot be
opened the macro logs the error but then dereferences the null file
handle (fatal, `none`); otherwise every recognized key of source 0 is
merged across the remaining sources. -/
def mergemacroFn (files : List (Option (List HKey))) : Option (List HKey) :=
  match files with
  | [] => none
  | none :: _ => none
  | some f0 :: rest => some (mergeKeys f0 f0 rest)

/-- The diagnostics mergemacro.C writes to the standard error channel. -/
inductive Diag where
  | openError (idx : Nat)
  | missingHist (name : String) (idx : Nat)
  | loadError (name : String)
deriving DecidableEq

/-- Diagnostics of the inner loop for one histogram name, walking the
later sources with their file indices. -/
def histDiags (n : String) : Nat → List (Option (List HKey)) → List Diag
  | _, [] => []
  | i, none :: rest => Diag.openError i :: histDiags n (i + 1) rest
  | i, some f :: rest =>
    (if fileGet f n = none then [Diag.missingHist n i] else []) ++ histDiags n (i + 1) rest

/-- All diagnostics of one run of mergemacro.C, in emission order: one
open-error for a failed source 0; otherwise, per recognized key of
source 0, either a load error for a failed seed lookup or the inner
loop's diagnostics over the later sources. -/
def mergemacroDiags (files : List (Option (List HKey))) : List Diag :=
  match files with
  | [] => []
  | none :: _ => [Diag.openError 0]
  | some f0 :: rest =>
    (f0.map (fun k =>
      if recognized k.className then
        match fileGet f0 k.name with
        | none => [Diag.loadError k.name]
        | some _ => histDiags k.name 1 rest
      else [])).flatten

/-- Left fold of `addHist` over a list of histograms, the shape of the
accumulated merge. -/
def sumHists (h0 : Hist) (hs : List Hist) : Hist :=
  hs.foldl addHist h0

/-- Lookup of a name in the merged output of mergemacro.C. -/
def outGet (files : List (Option (List HKey))) (n : String) : Option Hist :=
  (mergemacroFn files).bind (fun out => fileGet out n)

/-- The C cast `(int)x` of drawTuple.C: truncation toward zero. -/
def cIntCast (q : ℚ) : Int :=
  q.num.tdiv (q.den : Int)

/-- Rounding of `q * 100` to the nearest integer (half upward), the
value printed by `fixed << setprecision(2)`: computed on the reduced
numerator and denominator as `(200 num + den) / (2 den)` rounded
downward, which is the floor of `100 q + 1/2`. -/
def round100 (q : ℚ) : Int :=
  (200 * q.num + (q.den : Int)).ediv (2 * (q.den : Int))

/-- Fixed-point rendering with 2 decimal places, as the stream
manipulators `fixed << setprecision(2)` of drawTuple.C produce. -/
def fmt2 (q : ℚ) : String :=
  let n := round100 q
  let sign := if n < 0 then "-" else ""
  let m := n.natAbs
  sign ++ toString (m / 100) ++ "." ++ (if m % 100 < 10 then "0" else "") ++ toString (m % 100)

/-- The header line drawTuple.C writes before the row loop. -/
def csvHeader : String :=
  "Event,Mass,LeadPt,SubleadPt,DeltaPhi,DeltaEta,x1,x2,Parton1,Parton2"

/-- One CSV data line of drawTuple.C: the event index and the two
parton identifiers cast to int, the six remaining fields rendered with
fixed 2-decimal precision, comma separated. -/
def rowToCsv (r : Row) : String :=
  toString (cIntCast r.eventNum) ++ "," ++ fmt2 r.dijetMass ++ "," ++
    fmt2 r.leadingJetPt ++ "," ++ fmt2 r.subleadingJetPt ++ "," ++
    fmt2 r.deltaPhi ++ "," ++ fmt2 r.deltaEta ++ "," ++ fmt2 r.x1 ++ "," ++
    fmt2 r.x2 ++ "," ++ toString (cIntCast r.parton1Id) ++ "," ++
    toString (cIntCast r.parton2Id)

/-- drawTuple.C as a function from the merged table to the lines of
`dijet_data.csv`: the header, then one line per row in stored order. -/
def drawTuple (rows : List Row) : List String :=
  csvHeader :: rows.map rowToCsv

/-- Content of an output file: either the merged table or the merged
histogram set. -/
inductive Artifact where
  | table (rows : List Row)
  | hists (ks : List HKey)
deriving DecidableEq

/-- Modelled from the spec: the ROOT `TFile` open mode `"RECREATE"`
(an external library behavior) truncates the destination, fully
replacing any prior content of that file with what is then written. -/
def recreate (fs : String → Option Artifact) (name : String) (a : Artifact) :
    String → Option Artifact :=
  fun m => if m = name then some a else fs m

/-- mergetuple.C including its file-system effect: on success the
merged table is written to `merged_tuple.root`, opened `"RECREATE"`. -/
def runMergetuple (fs : String → Option Artifact) (start stop : Nat)
    (store : Nat → Option (List Row)) : Option (String → Option Artifact) :=
  (mergetuple start stop store).map (fun rows => recreate fs "merged_tuple.root" (Artifact.table rows))

/-- mergemacro.C including its file-system effect: on success the
merged histogram set is written to `merged_AnalysisResults.root`,
opened `"RECREATE"`. -/
def runMergemacroFn (fs : String → Option Artifact) (files : List (Option (List HKey))) :
    Option (String → Option Artifact) :=
  (mergemacroFn files).map (fun ks => recreate fs "merged_AnalysisResults.root" (Artifact.hists ks))

/-- A concrete sample row used by the witnesses. -/
def rowA : Row :=
  ⟨1, 2, 3, 4, 5, 6, 7, 8, 9, 10⟩

/-- A second concrete sample row used by the witnesses. -/
def rowB : Row :=
  ⟨2, mkRat 1 2, 0, 0, 0, 0, 0, 0, 21, -1⟩

/-- The sample row of the export-fidelity property: event 7, mass
123.456, leading pt 50.1, subleading pt 30.2, delta phi 3.14159,
delta eta 0.01, x1 0.002, x2 0.5, partons 21 and -1. -/
def sampleRow : Row :=
  ⟨mkRat 7 1, mkRat 123456 1000, mkRat 501 10, mkRat 302 10, mkRat 314159 100000,
    mkRat 1 100, mkRat 2 1000, mkRat 1 2, mkRat 21 1, mkRat (-1) 1⟩

lemma mergetupleLoop_range' (srcs : List (List Row)) :
    ∀ (k : Nat) (store : Nat → Option (List Row)),
      (∀ j, j < srcs.length → store (k + j) = srcs[j]?) →
      mergetupleLoop store (List.range' k srcs.length) = some srcs.flatten := by
  induction srcs with
  | nil => intro k store _; simp [mergetupleLoop, List.range']
  | cons x xs ih =>
    intro k store h
    have h0 : store k = some x := by
      have := h 0 (by simp)
      simpa using this
    have hrec := ih (k + 1) store (by
      intro j hj
      have := h (j + 1) (by simpa using Nat.succ_lt_succ hj)
      simpa [Nat.add_comm, Nat.add_assoc, Nat.add_left_comm] using this)
    rw [List.length_cons, List.range'_succ]
    simp [mergetupleLoop, h0, hrec]

/-- C1: merging N sources with row counts r0..r(N-1) yields the
concatenation of all sources in source order (so exactly sum(ri) rows,
each source's rows contiguous, in original order, field values
unchanged). -/
theorem c1_tuple_concat (srcs : List (List Row)) (h : 0 < srcs.length) :
    mergetuple 0 (srcs.length - 1) (fun i => srcs[i]?) = some srcs.flatten ∧
      srcs.flatten.length = (srcs.map List.length).sum := by
  constructor
  · have hlen : srcs.length - 1 + 1 - 0 = srcs.length := by omega
    rw [mergetuple, hlen]
    exact mergetupleLoop_range' srcs 0 _ (by intro j hj; simp)
  · simp [List.length_flatten]

theorem c1_witness :
    0 < ([[rowA], [rowB, rowA]] : List (List Row)).length ∧
      (mergetuple 0 (([[rowA], [rowB, rowA]] : List (List Row)).length - 1)
          (fun i => ([[rowA], [rowB, rowA]] : List (List Row))[i]?) =
          some ([[rowA], [rowB, rowA]] : List (List Row)).flatten ∧
        ([[rowA], [rowB, rowA]] : List (List Row)).flatten.length =
          (([[rowA], [rowB, rowA]] : List (List Row)).map List.length).sum) :=
  ⟨by decide, c1_tuple_concat [[rowA], [rowB, rowA]] (by decide)⟩

/-- C2: the exported CSV starts with the exact header line, is
followed by one line per row in stored order, and the sample row
(7, 123.456, 50.1, 30.2, 3.14159, 0.01, 0.002, 0.5, 21, -1) renders
exactly as `7,123.46,50.10,30.20,3.14,0.01,0.00,0.50,21,-1`. -/
theorem c2_export_fidelity (rows : List Row) :
    (drawTuple rows).head? =
        some "Event,Mass,LeadPt,SubleadPt,DeltaPhi,DeltaEta,x1,x2,Parton1,Parton2" ∧
      (drawTuple rows).drop 1 = rows.map rowToCsv ∧
      rowToCsv sampleRow = "7,123.46,50.10,30.20,3.14,0.01,0.00,0.50,21,-1" := by
  refine ⟨rfl, rfl, ?_⟩
  decide

/-- C10: the header is written unconditionally before the row loop:
an empty table exports as exactly the single header line, and in
general the CSV has exactly one more line than the table has rows. -/
theorem c10_header_line_count :
    drawTuple [] = [csvHeader] ∧ ∀ rows : List Row, (drawTuple rows).length = rows.length + 1 := by
  constructor
  · rfl
  · intro rows; simp [drawTuple]

lemma mergeOne_eq_sumHists (n : String) :
    ∀ (rest : List (Option (List HKey))) (h0 : Hist),
      mergeOne h0 n rest =
        sumHists h0 (rest.filterMap (fun g => g.bind (fun f => fileGet f n))) := by
  intro rest
  induction rest with
  | nil => intro h0; rfl
  | cons g rest' ih =>
    intro h0
    cases g with
    | none => simpa [mergeOne, mergeStep, List.foldl_cons] using ih h0
    | some f =>
      cases hf : fileGet f n with
      | none =>
        simpa [mergeOne, mergeStep, List.foldl_cons, hf] using ih h0
      | some h =>
        simpa [mergeOne, mergeStep, sumHists, List.foldl_cons, hf] using ih (addHist h0 h)

lemma addHist_of_len {a b : Hist} (h : a.bins.length = b.bins.length) :
    addHist a b = ⟨List.zipWith (fun x y => x + y) a.bins b.bins, a.entries + b.entries⟩ := by
  simp [addHist, h]

lemma length_addHist {a b : Hist} (h : a.bins.length = b.bins.length) :
    (addHist a b).bins.length = a.bins.length := by
  simp [addHist_of_len h, h]

lemma zipWith_add_getD :
    ∀ (xs ys : List ℚ), xs.length = ys.length → ∀ j,
      (List.zipWith (fun x y => x + y) xs ys).getD j 0 = xs.getD j 0 + ys.getD j 0 := by
  intro xs
  induction xs with
  | nil =>
    intro ys h j
    cases ys with
    | nil => simp
    | cons y ys' => simp at h
  | cons x xs' ih =>
    intro ys h j
    cases ys with
    | nil => simp at h
    | cons y ys' =>
      cases j with
      | zero => simp
      | succ j' =>
        simp only [List.zipWith_cons_cons, List.getD_cons_succ]
        exact ih ys' (by simpa using h) j'

lemma sumHists_pointwise :
    ∀ (hs : List Hist) (h0 : Hist), (∀ h ∈ hs, h.bins.length = h0.bins.length) →
      (sumHists h0 hs).bins.length = h0.bins.length ∧
      (sumHists h0 hs).entries = h0.entries + (hs.map Hist.entries).sum ∧
      ∀ j, (sumHists h0 hs).bins.getD j 0 =
        h0.bins.getD j 0 + (hs.map (fun h => h.bins.getD j 0)).sum := by
  intro hs
  induction hs with
  | nil => intro h0 _; refine ⟨rfl, by simp [sumHists], by simp [sumHists]⟩
  | cons h hs' ih =>
    intro h0 hlen
    have hh : h.bins.length = h0.bins.length := hlen h (by simp)
    have hadd : (addHist h0 h).bins.length = h0.bins.length := length_addHist hh.symm
    have ih' := ih (addHist h0 h) (by
      intro h' hm
      rw [hadd]
      exact hlen h' (by simp [hm]))
    have hstep : sumHists h0 (h :: hs') = sumHists (addHist h0 h) hs' := rfl
    refine ⟨by rw [hstep, ih'.1, hadd], ?_, ?_⟩
    · rw [hstep, ih'.2.1, addHist_of_len hh.symm]
      simp [add_assoc]
    · intro j
      rw [hstep, ih'.2.2 j, addHist_of_len hh.symm]
      simp only [List.map_cons, List.sum_cons]
      rw [zipWith_add_getD h0.bins h.bins hh.symm j]
      ring

lemma find_mergeKeys (f0 : List HKey) (rest : List (Option (List HKey))) (n : String)
    (k : HKey) (h0 : Hist) (hfg : fileGet f0 n = some h0) :
    ∀ l : List HKey, l.find? (fun x => x.name == n) = some k →
      recognized k.className = true →
      (mergeKeys f0 l rest).find? (fun x => x.name == n) =
        some ⟨k.name, k.className, mergeOne h0 k.name rest⟩ := by
  intro l
  induction l with
  | nil => intro h _; simp at h
  | cons x l' ih =>
    intro hfind hrc
    by_cases hx : x.name = n
    · have hkx : k = x := by
        have := List.find?_cons_of_pos (p := fun x => x.name == n) (a := x) l' (by simp [hx])
        rw [this] at hfind
        exact (Option.some.injEq _ _).mp hfind.symm
      subst hkx
      have hget : fileGet f0 k.name = some h0 := by rw [hx]; exact hfg
      simp only [mergeKeys, List.filterMap_cons, hrc, if_true, hget]
      exact List.find?_cons_of_pos _ (by simp [hx])
    · have hfind' : l'.find? (fun x => x.name == n) = some k := by
        rw [List.find?_cons_of_neg _ (by simp [hx])] at hfind
        exact hfind
      have ih' := ih hfind' hrc
      by_cases hcx : recognized x.className
      · cases hgx : fileGet f0 x.name with
        | none =>
          simp only [mergeKeys, List.filterMap_cons, hcx, if_true, hgx]
          exact ih'
        | some hx0 =>
          simp only [mergeKeys, List.filterMap_cons, hcx, if_true, hgx]
          rw [List.find?_cons_of_neg _ (by simp [hx])]
          exact ih'
      · simp only [mergeKeys, List.filterMap_cons, hcx, if_false]
        exact ih'

lemma missing_mem_histDiags (n : String) :
    ∀ (rest : List (Option (List HKey))) (i m : Nat) (fm : List HKey),
      rest[m]? = some (some fm) → fileGet fm n = none →
      Diag.missingHist n (i + m) ∈ histDiags n i rest := by
  intro rest
  induction rest with
  | nil => intro i m fm h _; simp at h
  | cons g rest' ih =>
    intro i m fm hm hmiss
    cases m with
    | zero =>
      simp only [List.getElem?_cons_zero, Option.some.injEq] at hm
      subst hm
      simp [histDiags, hmiss]
    | succ m' =>
      simp only [List.getElem?_cons_succ] at hm
      have := ih (i + 1) m' fm hm hmiss
      have harith : i + 1 + m' = i + (m' + 1) := by omega
      rw [harith] at this
      cases g with
      | none => simp [histDiags, this]
      | some f => simp [histDiags, this]

/-- A sample 1-D double-precision histogram key. -/
def keyH : HKey :=
  ⟨"hDijetMass", "TH1D", ⟨[1, 2], 3⟩⟩

/-- A sample non-histogram key (a tree), ignored by the merger. -/
def keyT : HKey :=
  ⟨"dijetNtuple", "TTree", ⟨[], 0⟩⟩

lemma fileGet_of_mem {f0 : List HKey} {k : HKey} (hk : k ∈ f0) :
    ∃ h, fileGet f0 k.name = some h := by
  have hs : (f0.find? (fun x => x.name == k.name)).isSome :=
    List.find?_isSome.mpr ⟨k, hk, by simp⟩
  obtain ⟨k', hk'⟩ := Option.isSome_iff_exists.mp hs
  exact ⟨k'.hist, by simp [fileGet, hk']⟩

lemma mergeKeys_pairs (f0 : List HKey) (rest : List (Option (List HKey))) :
    ∀ l : List HKey, (∀ k ∈ l, k ∈ f0) →
      (mergeKeys f0 l rest).map (fun k => (k.name, k.className)) =
        (l.filter (fun k => recognized k.className)).map (fun k => (k.name, k.className)) := by
  intro l
  induction l with
  | nil => intro _; rfl
  | cons k l' ih =>
    intro hmem
    have hk : k ∈ f0 := hmem k (by simp)
    have hrec := ih (fun x hx => hmem x (by simp [hx]))
    by_cases hc : recognized k.className
    · obtain ⟨h, hh⟩ := fileGet_of_mem hk
      simp [mergeKeys, List.filterMap_cons, hc, hh, List.filter_cons] at hrec ⊢
      exact hrec
    · simp [mergeKeys, List.filterMap_cons, hc, List.filter_cons] at hrec ⊢
      exact hrec

lemma mem_mergeKeys_nil {f0 : List HKey} {e : HKey} (he : e ∈ mergeKeys f0 f0 []) :
    fileGet f0 e.name = some e.hist := by
  rw [mergeKeys, List.mem_filterMap] at he
  obtain ⟨k, _, hk⟩ := he
  by_cases hc : recognized k.className
  · simp only [hc, if_true] at hk
    cases hh : fileGet f0 k.name with
    | none => rw [hh] at hk; simp at hk
    | some h0 =>
      rw [hh] at hk
      simp only [Option.some.injEq] at hk
      subst hk
      simpa [mergeOne] using hh
  · simp [hc] at hk

/-- A sample 1-D single-precision histogram key with the same name as
`keyH`, used as a later source's copy. -/
def keyHf : HKey :=
  ⟨"hDijetMass", "TH1F", ⟨[10, 20], 5⟩⟩

/-- C3: if a later source k lacks histogram H recognized in source 0,
the merge still succeeds, a missing-histogram diagnostic naming H and
source k is recorded, and the merged H is the fold of bin-wise
addition over exactly the sources that do have H: its entry count is
the sum of their entry counts and each bin is the sum of their
corresponding bins, source k contributing nothing. -/
theorem c3_missing_histogram_tolerance
    (f0 fm : List HKey) (rest : List (Option (List HKey))) (H : String) (k : HKey) (m : Nat)
    (hfind : f0.find? (fun x => x.name == H) = some k)
    (hrc : recognized k.className = true)
    (hm : rest[m]? = some (some fm))
    (hmiss : fileGet fm H = none)
    (hlen : ∀ h ∈ rest.filterMap (fun g => g.bind (fun f => fileGet f H)),
      h.bins.length = k.hist.bins.length) :
    (mergemacroFn (some f0 :: rest)).isSome = true ∧
      Diag.missingHist H (m + 1) ∈ mergemacroDiags (some f0 :: rest) ∧
      outGet (some f0 :: rest) H =
        some (sumHists k.hist (rest.filterMap (fun g => g.bind (fun f => fileGet f H)))) ∧
      (sumHists k.hist (rest.filterMap (fun g => g.bind (fun f => fileGet f H)))).entries =
        k.hist.entries +
          ((rest.filterMap (fun g => g.bind (fun f => fileGet f H))).map Hist.entries).sum ∧
      ∀ j, (sumHists k.hist (rest.filterMap (fun g => g.bind (fun f => fileGet f H)))).bins.getD j 0 =
        k.hist.bins.getD j 0 +
          ((rest.filterMap (fun g => g.bind (fun f => fileGet f H))).map
            (fun h => h.bins.getD j 0)).sum := by
  have hkn : k.name = H := by
    have := List.find?_some hfind
    simpa using this
  have hkm : k ∈ f0 := List.mem_of_find?_eq_some hfind
  have hget : fileGet f0 H = some k.hist := by simp [fileGet, hfind]
  have hsum := sumHists_pointwise (rest.filterMap (fun g => g.bind (fun f => fileGet f H)))
    k.hist hlen
  refine ⟨rfl, ?_, ?_, hsum.2.1, hsum.2.2⟩
  · have hmem := missing_mem_histDiags H rest 1 m fm hm hmiss
    rw [Nat.add_comm 1 m] at hmem
    simp only [mergemacroDiags, List.mem_flatten]
    refine ⟨histDiags k.name 1 rest, ?_, by rw [hkn]; exact hmem⟩
    refine List.mem_map.mpr ⟨k, hkm, ?_⟩
    simp [hrc, hkn, hget]
  · have hchar := find_mergeKeys f0 rest H k k.hist hget f0 hfind hrc
    have hout : outGet (some f0 :: rest) H = some (mergeOne k.hist k.name rest) := by
      simp [outGet, mergemacroFn, fileGet, hchar]
    rw [hout, hkn, mergeOne_eq_sumHists]

theorem c3_witness :
    (([keyH] : List HKey).find? (fun x => x.name == "hDijetMass") = some keyH ∧
      recognized keyH.className = true ∧
      ([some [], some [keyHf]] : List (Option (List HKey)))[0]? = some (some ([] : List HKey)) ∧
      fileGet [] "hDijetMass" = none ∧
      ∀ h ∈ ([some [], some [keyHf]] : List (Option (List HKey))).filterMap
        (fun g => g.bind (fun f => fileGet f "hDijetMass")),
        h.bins.length = keyH.hist.bins.length) ∧
    ((mergemacroFn (some [keyH] :: [some [], some [keyHf]])).isSome = true ∧
      Diag.missingHist "hDijetMass" (0 + 1) ∈
        mergemacroDiags (some [keyH] :: [some [], some [keyHf]]) ∧
      outGet (some [keyH] :: [some [], some [keyHf]]) "hDijetMass" =
        some (sumHists keyH.hist (([some [], some [keyHf]] : List (Option (List HKey))).filterMap
          (fun g => g.bind (fun f => fileGet f "hDijetMass")))) ∧
      (sumHists keyH.hist (([some [], some [keyHf]] : List (Option (List HKey))).filterMap
          (fun g => g.bind (fun f => fileGet f "hDijetMass")))).entries =
        keyH.hist.entries +
          ((([some [], some [keyHf]] : List (Option (List HKey))).filterMap
            (fun g => g.bind (fun f => fileGet f "hDijetMass"))).map Hist.entries).sum ∧
      ∀ j, (sumHists keyH.hist (([some [], some [keyHf]] : List (Option (List HKey))).filterMap
          (fun g => g.bind (fun f => fileGet f "hDijetMass")))).bins.getD j 0 =
        keyH.hist.bins.getD j 0 +
          ((([some [], some [keyHf]] : List (Option (List HKey))).filterMap
            (fun g => g.bind (fun f => fileGet f "hDijetMass"))).map
              (fun h => h.bins.getD j 0)).sum) :=
  ⟨⟨by decide, by decide, by decide, by decide, by decide⟩,
    c3_missing_histogram_tolerance [keyH] [] [some [], some [keyHf]] "hDijetMass" keyH 0
      (by decide) (by decide) (by decide) (by decide) (by decide)⟩

/-- C5: the histogram merger processes exactly the keys of source 0
whose class is TH1F, TH1D or TH2D: the merged output's entries
correspond one to one (name and class) to the recognized keys of
source 0, so keys of any other class produce no output entry. -/
theorem c5_recognized_kinds_only (f0 : List HKey) (rest : List (Option (List HKey))) :
    ∃ out, mergemacroFn (some f0 :: rest) = some out ∧
      out.map (fun k => (k.name, k.className)) =
        (f0.filter (fun k => recognized k.className)).map (fun k => (k.name, k.className)) :=
  ⟨mergeKeys f0 f0 rest, rfl, mergeKeys_pairs f0 rest f0 (fun _ h => h)⟩

theorem c5_witness :
    ∃ out, mergemacroFn (some [keyH, keyT] :: []) = some out ∧
      out.map (fun k => (k.name, k.className)) =
        (([keyH, keyT] : List HKey).filter (fun k => recognized k.className)).map
          (fun k => (k.name, k.className)) :=
  c5_recognized_kinds_only [keyH, keyT] []

/-- C6: merging a single source is a round trip: the merged table is
exactly that source's row list, and every histogram of the merged
output is identical (bins and entry count) to the same-named
histogram of the source, the output holding one entry per recognized
key of the source. -/
theorem c6_single_source_roundtrip (src : List Row) (f0 : List HKey) :
    mergetuple 0 0 (fun i => if i = 0 then some src else none) = some src ∧
      ∃ out, mergemacroFn [some f0] = some out ∧
        out.map (fun k => (k.name, k.className)) =
          (f0.filter (fun k => recognized k.className)).map (fun k => (k.name, k.className)) ∧
        ∀ e ∈ out, fileGet f0 e.name = some e.hist := by
  refine ⟨?_, mergeKeys f0 f0 [], rfl, mergeKeys_pairs f0 [] f0 (fun _ h => h), ?_⟩
  · simp [mergetuple, mergetupleLoop, List.range'_one]
  · intro e he
    exact mem_mergeKeys_nil he

theorem c6_witness :
    mergetuple 0 0 (fun i => if i = 0 then some [rowA, rowB] else none) = some [rowA, rowB] ∧
      ∃ out, mergemacroFn [some [keyH, keyT]] = some out ∧
        out.map (fun k => (k.name, k.className)) =
          (([keyH, keyT] : List HKey).filter (fun k => recognized k.className)).map
            (fun k => (k.name, k.className)) ∧
        ∀ e ∈ out, fileGet [keyH, keyT] e.name = some e.hist :=
  c6_single_source_roundtrip [rowA, rowB] [keyH, keyT]

lemma open_mem_histDiags (n : String) :
    ∀ (rest : List (Option (List HKey))) (i m : Nat),
      rest[m]? = some none → Diag.openError (i + m) ∈ histDiags n i rest := by
  intro rest
  induction rest with
  | nil => intro i m h; simp at h
  | cons g rest' ih =>
    intro i m hm
    cases m with
    | zero =>
      simp only [List.getElem?_cons_zero, Option.some.injEq] at hm
      subst hm
      simp [histDiags]
    | succ m' =>
      simp only [List.getElem?_cons_succ] at hm
      have := ih (i + 1) m' hm
      have harith : i + 1 + m' = i + (m' + 1) := by omega
      rw [harith] at this
      cases g with
      | none => simp [histDiags, this]
      | some f => simp [histDiags, this]

lemma mergeOne_set_empty (n : String) :
    ∀ (rest : List (Option (List HKey))) (m : Nat) (h0 : Hist),
      rest[m]? = some none →
      mergeOne h0 n (rest.set m (some [])) = mergeOne h0 n rest := by
  intro rest
  induction rest with
  | nil => intro m h0 h; simp at h
  | cons g rest' ih =>
    intro m h0 hm
    cases m with
    | zero =>
      simp only [List.getElem?_cons_zero, Option.some.injEq] at hm
      subst hm
      simp [List.set, mergeOne, mergeStep, List.foldl_cons, fileGet]
    | succ m' =>
      simp only [List.getElem?_cons_succ] at hm
      simp only [List.set]
      simp only [mergeOne, List.foldl_cons]
      exact ih m' (mergeStep n h0 g) hm

lemma mergemacroFn_set_empty (f0 : List HKey) (rest : List (Option (List HKey))) (m : Nat)
    (hm : rest[m]? = some none) :
    mergemacroFn (some f0 :: rest.set m (some [])) = mergemacroFn (some f0 :: rest) := by
  simp only [mergemacroFn, Option.some.injEq]
  rw [mergeKeys, mergeKeys]
  apply List.filterMap_congr
  intro k _
  by_cases hc : recognized k.className
  · cases hg : fileGet f0 k.name with
    | none => simp [hc, hg]
    | some h0 => simp [hc, hg, mergeOne_set_empty k.name rest m h0 hm]
  · simp [hc]

lemma mergetupleLoop_none (store : Nat → Option (List Row)) :
    ∀ (idxs : List Nat) (i : Nat), i ∈ idxs → store i = none →
      mergetupleLoop store idxs = none := by
  intro idxs
  induction idxs with
  | nil => intro i h _; simp at h
  | cons j js ih =>
    intro i hmem hnone
    cases hj : store j with
    | none => simp [mergetupleLoop, hj]
    | some rows =>
      rcases List.mem_cons.mp hmem with h | h
      · subst h; rw [hj] at hnone; exact absurd hnone (by simp)
      · simp [mergetupleLoop, hj, ih i h hnone]

/-- C7 counterexample: when source 0 cannot be opened the histogram
merger logs the open error but does not skip and continue: it
dereferences the failed file handle and the merge dies, against the
claim that an unopenable source is skipped for every source including
source 0. -/
theorem c7_counterexample :
    mergemacroFn [none, some [keyH]] = none ∧
      mergemacroDiags [none, some [keyH]] = [Diag.openError 0] :=
  ⟨rfl, rfl⟩

/-- C7 amended: an unopenable source k of index 1 or higher is logged
and skipped by the histogram merger (replacing it by an opened empty
source leaves the merged output unchanged, and the merge still
succeeds), but an unopenable source 0 is logged and then fatal; for
the tuple merger an unopenable source, or one whose table is absent,
anywhere in the range is fatal. -/
theorem c7_open_failure_policy (f0 : List HKey) (rest : List (Option (List HKey)))
    (k : HKey) (m : Nat) (hk : k ∈ f0) (hrc : recognized k.className = true)
    (hm : rest[m]? = some none) :
    (mergemacroFn (some f0 :: rest)).isSome = true ∧
      mergemacroFn (some f0 :: rest.set m (some [])) = mergemacroFn (some f0 :: rest) ∧
      Diag.openError (m + 1) ∈ mergemacroDiags (some f0 :: rest) ∧
      (∀ rest', mergemacroFn (none :: rest') = none) ∧
      (∀ rest', Diag.openError 0 ∈ mergemacroDiags (none :: rest')) ∧
      ∀ (start stop i : Nat) (store : Nat → Option (List Row)),
        start ≤ i → i ≤ stop → store i = none → mergetuple start stop store = none := by
  refine ⟨rfl, mergemacroFn_set_empty f0 rest m hm, ?_, fun _ => rfl, fun _ => by
    simp [mergemacroDiags], ?_⟩
  · obtain ⟨h0, hget⟩ := fileGet_of_mem hk
    have hmem := open_mem_histDiags k.name rest 1 m hm
    rw [Nat.add_comm 1 m] at hmem
    simp only [mergemacroDiags, List.mem_flatten]
    refine ⟨histDiags k.name 1 rest, ?_, hmem⟩
    refine List.mem_map.mpr ⟨k, hk, ?_⟩
    simp [hrc, hget]
  · intro start stop i store hsi his hnone
    have hmem : i ∈ List.range' start (stop + 1 - start) := by
      rw [List.mem_range'_1]
      omega
    exact mergetupleLoop_none store _ i hmem hnone

theorem c7_witness :
    (keyH ∈ ([keyH] : List HKey) ∧ recognized keyH.className = true ∧
      ([none, some [keyHf]] : List (Option (List HKey)))[0]? = some none) ∧
    ((mergemacroFn (some [keyH] :: [none, some [keyHf]])).isSome = true ∧
      mergemacroFn (some [keyH] :: ([none, some [keyHf]] : List (Option (List HKey))).set 0 (some [])) =
        mergemacroFn (some [keyH] :: [none, some [keyHf]]) ∧
      Diag.openError (0 + 1) ∈ mergemacroDiags (some [keyH] :: [none, some [keyHf]]) ∧
      (∀ rest', mergemacroFn (none :: rest') = none) ∧
      (∀ rest', Diag.openError 0 ∈ mergemacroDiags (none :: rest')) ∧
      ∀ (start stop i : Nat) (store : Nat → Option (List Row)),
        start ≤ i → i ≤ stop → store i = none → mergetuple start stop store = none) :=
  ⟨⟨by decide, by decide, by decide⟩,
    c7_open_failure_policy [keyH] [none, some [keyHf]] keyH 0 (by decide) (by decide) (by decide)⟩

/-- C8 counterexample: with an empty source list the histogram merger
indexes the first file name out of bounds and cannot produce the empty
merged histogram set the claim promises: the run is fatal. -/
theorem c8_counterexample :
    mergemacroFn [] = none ∧ mergemacroFn [] ≠ some [] := by
  exact ⟨rfl, by decide⟩

/-- C8 amended: an empty index range gives the tuple merger an empty
loop, producing a zero-row merged table without any fatal condition;
the histogram merger, by contrast, fails fatally on an empty source
list (out-of-bounds access to the first file name). -/
theorem c8_empty_range (start stop : Nat) (store : Nat → Option (List Row)) (h : stop < start) :
    mergetuple start stop store = some [] ∧ mergemacroFn [] = none := by
  have h0 : stop + 1 - start = 0 := by omega
  rw [mergetuple, h0]
  exact ⟨rfl, rfl⟩

theorem c8_witness :
    4 < 5 ∧ (mergetuple 5 4 (fun _ => none) = some [] ∧ mergemacroFn [] = none) :=
  ⟨by decide, c8_empty_range 5 4 (fun _ => none) (by decide)⟩

lemma zipWith_add_comm (xs ys : List ℚ) :
    List.zipWith (fun x y => x + y) xs ys = List.zipWith (fun x y => x + y) ys xs :=
  List.zipWith_comm_of_comm _ (fun x y => add_comm x y) xs ys

lemma zipWith_add_assoc :
    ∀ xs ys zs : List ℚ,
      List.zipWith (fun x y => x + y) (List.zipWith (fun x y => x + y) xs ys) zs =
        List.zipWith (fun x y => x + y) xs (List.zipWith (fun x y => x + y) ys zs) := by
  intro xs
  induction xs with
  | nil => intro ys zs; simp
  | cons x xs' ih =>
    intro ys zs
    cases ys with
    | nil => simp
    | cons y ys' =>
      cases zs with
      | nil => simp
      | cons z zs' => simp [add_assoc, ih]

lemma addHist_comm (a b : Hist) (h : a.bins.length = b.bins.length) :
    addHist a b = addHist b a := by
  rw [addHist_of_len h, addHist_of_len h.symm]
  simp only [Hist.mk.injEq]
  exact ⟨zipWith_add_comm _ _, add_comm _ _⟩

lemma addHist_assoc (a b c : Hist) (hab : a.bins.length = b.bins.length)
    (hac : a.bins.length = c.bins.length) :
    addHist (addHist a b) c = addHist a (addHist b c) := by
  have hbc : b.bins.length = c.bins.length := hab.symm.trans hac
  rw [addHist_of_len hab, addHist_of_len hbc]
  rw [addHist_of_len (a := ⟨List.zipWith (fun x y => x + y) a.bins b.bins, a.entries + b.entries⟩)
    (by simp [List.length_zipWith, hab, hbc])]
  rw [addHist_of_len (b := ⟨List.zipWith (fun x y => x + y) b.bins c.bins, b.entries + c.entries⟩)
    (by simp [List.length_zipWith, hab, hbc])]
  simp only [Hist.mk.injEq]
  exact ⟨zipWith_add_assoc _ _ _, add_assoc _ _ _⟩

lemma outGet_three (X Y Z : List HKey) (n : String) (kx ky kz : HKey)
    (hX : X.find? (fun x => x.name == n) = some kx) (hrx : recognized kx.className = true)
    (hY : Y.find? (fun x => x.name == n) = some ky)
    (hZ : Z.find? (fun x => x.name == n) = some kz) :
    outGet [some X, some Y, some Z] n = some (addHist (addHist kx.hist ky.hist) kz.hist) := by
  have hgX : fileGet X n = some kx.hist := by simp [fileGet, hX]
  have hgY : fileGet Y n = some ky.hist := by simp [fileGet, hY]
  have hgZ : fileGet Z n = some kz.hist := by simp [fileGet, hZ]
  have hxn : kx.name = n := by simpa using List.find?_some hX
  have hchar := find_mergeKeys X [some Y, some Z] n kx kx.hist hgX X hX hrx
  simp [outGet, mergemacroFn, fileGet, hchar, mergeOne, mergeStep, hxn, hY, hZ]

/-- C4 counterexample: sources whose same-named histograms all share
binning, yet whose merges under two enumeration orders differ:
histogram g exists only in source B, so with A enumerated first g is
dropped entirely, while with B first it is kept with its bins. -/
theorem c4_counterexample :
    (∀ k1 ∈ ([⟨"h", "TH1F", ⟨[1], 1⟩⟩] : List HKey) ++
        ([⟨"h", "TH1F", ⟨[2], 1⟩⟩, ⟨"g", "TH1F", ⟨[5], 1⟩⟩] : List HKey) ++ ([] : List HKey),
      ∀ k2 ∈ ([⟨"h", "TH1F", ⟨[1], 1⟩⟩] : List HKey) ++
        ([⟨"h", "TH1F", ⟨[2], 1⟩⟩, ⟨"g", "TH1F", ⟨[5], 1⟩⟩] : List HKey) ++ ([] : List HKey),
      k1.name = k2.name → k1.hist.bins.length = k2.hist.bins.length) ∧
    outGet [some [⟨"h", "TH1F", ⟨[1], 1⟩⟩],
        some [⟨"h", "TH1F", ⟨[2], 1⟩⟩, ⟨"g", "TH1F", ⟨[5], 1⟩⟩], some []] "g" = none ∧
    outGet [some [⟨"h", "TH1F", ⟨[2], 1⟩⟩, ⟨"g", "TH1F", ⟨[5], 1⟩⟩],
        some [⟨"h", "TH1F", ⟨[1], 1⟩⟩], some []] "g" = some ⟨[5], 1⟩ := by
  decide

/-- C4 amended: for a histogram name present with a recognized kind in
every one of the three sources and with shared binning, the merged
histogram for that name is the same under all six enumeration orders,
and merging [A,B] and then merging that result with [C] gives the
same merged histogram as merging [A,B,C] directly; full
order-independence of the whole artifact additionally needs every
source to carry the same histogram names, since names absent from the
first-enumerated source are dropped. -/
theorem c4_merge_order (A B C : List HKey) (n : String) (ka kb kc : HKey)
    (hA : A.find? (fun x => x.name == n) = some ka) (hra : recognized ka.className = true)
    (hB : B.find? (fun x => x.name == n) = some kb) (hrb : recognized kb.className = true)
    (hC : C.find? (fun x => x.name == n) = some kc) (hrc : recognized kc.className = true)
    (lab : ka.hist.bins.length = kb.hist.bins.length)
    (lac : ka.hist.bins.length = kc.hist.bins.length) :
    outGet [some A, some B, some C] n =
        some (addHist (addHist ka.hist kb.hist) kc.hist) ∧
      outGet [some B, some A, some C] n = outGet [some A, some B, some C] n ∧
      outGet [some A, some C, some B] n = outGet [some A, some B, some C] n ∧
      outGet [some B, some C, some A] n = outGet [some A, some B, some C] n ∧
      outGet [some C, some A, some B] n = outGet [some A, some B, some C] n ∧
      outGet [some C, some B, some A] n = outGet [some A, some B, some C] n ∧
      ∀ out2, mergemacroFn [some A, some B] = some out2 →
        outGet [some out2, some C] n = outGet [some A, some B, some C] n := by
  have lbc : kb.hist.bins.length = kc.hist.bins.length := lab.symm.trans lac
  have e1 := outGet_three A B C n ka kb kc hA hra hB hC
  have e2 := outGet_three B A C n kb ka kc hB hrb hA hC
  have e3 := outGet_three A C B n ka kc kb hA hra hC hB
  have e4 := outGet_three B C A n kb kc ka hB hrb hC hA
  have e5 := outGet_three C A B n kc ka kb hC hrc hA hB
  have e6 := outGet_three C B A n kc kb ka hC hrc hB hA
  have q2 : addHist (addHist kb.hist ka.hist) kc.hist =
      addHist (addHist ka.hist kb.hist) kc.hist := by
    rw [addHist_comm kb.hist ka.hist lab.symm]
  have q3 : addHist (addHist ka.hist kc.hist) kb.hist =
      addHist (addHist ka.hist kb.hist) kc.hist := by
    rw [addHist_assoc ka.hist kc.hist kb.hist lac lab, addHist_comm kc.hist kb.hist lbc.symm,
      ← addHist_assoc ka.hist kb.hist kc.hist lab lac]
  have q4 : addHist (addHist kb.hist kc.hist) ka.hist =
      addHist (addHist ka.hist kb.hist) kc.hist := by
    rw [addHist_comm (addHist kb.hist kc.hist) ka.hist ((length_addHist lbc).trans lab.symm),
      ← addHist_assoc ka.hist kb.hist kc.hist lab lac]
  have q5 : addHist (addHist kc.hist ka.hist) kb.hist =
      addHist (addHist ka.hist kb.hist) kc.hist := by
    rw [addHist_comm kc.hist ka.hist lac.symm]
    exact q3
  have q6 : addHist (addHist kc.hist kb.hist) ka.hist =
      addHist (addHist ka.hist kb.hist) kc.hist := by
    rw [addHist_comm kc.hist kb.hist lbc.symm]
    exact q4
  refine ⟨e1, ?_, ?_, ?_, ?_, ?_, ?_⟩
  · rw [e1, e2, q2]
  · rw [e1, e3, q3]
  · rw [e1, e4, q4]
  · rw [e1, e5, q5]
  · rw [e1, e6, q6]
  · intro out2 hout2
    have hgA : fileGet A n = some ka.hist := by simp [fileGet, hA]
    have hgB : fileGet B n = some kb.hist := by simp [fileGet, hB]
    have hgC : fileGet C n = some kc.hist := by simp [fileGet, hC]
    have han : ka.name = n := by simpa using List.find?_some hA
    have hout2' : out2 = mergeKeys A A [some B] := by
      simpa [mergemacroFn] using hout2.symm
    subst hout2'
    have hchar1 := find_mergeKeys A [some B] n ka ka.hist hgA A hA hra
    have hmergeAB : mergeOne ka.hist ka.name [some B] = addHist ka.hist kb.hist := by
      simp [mergeOne, mergeStep, han, hgB]
    have hfg2 : fileGet (mergeKeys A A [some B]) n =
        some (addHist ka.hist kb.hist) := by
      simp [fileGet, hchar1, hmergeAB]
    have hchar2 := find_mergeKeys (mergeKeys A A [some B]) [some C] n
      ⟨ka.name, ka.className, mergeOne ka.hist ka.name [some B]⟩
      (addHist ka.hist kb.hist) hfg2 (mergeKeys A A [some B]) hchar1 hra
    rw [e1]
    simp [outGet, mergemacroFn, fileGet, hchar2, hmergeAB, mergeOne, mergeStep, han, hC]

/-- A sample 2-D double-precision histogram key with the same name as
`keyH`, used as a third source's copy. -/
def keyHd : HKey :=
  ⟨"hDijetMass", "TH2D", ⟨[7, 8], 2⟩⟩

theorem c4_witness :
    (([keyH] : List HKey).find? (fun x => x.name == "hDijetMass") = some keyH ∧
      recognized keyH.className = true ∧
      ([keyHf] : List HKey).find? (fun x => x.name == "hDijetMass") = some keyHf ∧
      recognized keyHf.className = true ∧
      ([keyHd] : List HKey).find? (fun x => x.name == "hDijetMass") = some keyHd ∧
      recognized keyHd.className = true ∧
      keyH.hist.bins.length = keyHf.hist.bins.length ∧
      keyH.hist.bins.length = keyHd.hist.bins.length) ∧
    (outGet [some [keyH], some [keyHf], some [keyHd]] "hDijetMass" =
        some (addHist (addHist keyH.hist keyHf.hist) keyHd.hist) ∧
      outGet [some [keyHf], some [keyH], some [keyHd]] "hDijetMass" =
        outGet [some [keyH], some [keyHf], some [keyHd]] "hDijetMass" ∧
      outGet [some [keyH], some [keyHd], some [keyHf]] "hDijetMass" =
        outGet [some [keyH], some [keyHf], some [keyHd]] "hDijetMass" ∧
      outGet [some [keyHf], some [keyHd], some [keyH]] "hDijetMass" =
        outGet [some [keyH], some [keyHf], some [keyHd]] "hDijetMass" ∧
      outGet [some [keyHd], some [keyH], some [keyHf]] "hDijetMass" =
        outGet [some [keyH], some [keyHf], some [keyHd]] "hDijetMass" ∧
      outGet [some [keyHd], some [keyHf], some [keyH]] "hDijetMass" =
        outGet [some [keyH], some [keyHf], some [keyHd]] "hDijetMass" ∧
      ∀ out2, mergemacroFn [some [keyH], some [keyHf]] = some out2 →
        outGet [some out2, some [keyHd]] "hDijetMass" =
          outGet [some [keyH], some [keyHf], some [keyHd]] "hDijetMass") :=
  ⟨⟨by decide, by decide, by decide, by decide, by decide, by decide, by decide, by decide⟩,
    c4_merge_order [keyH] [keyHf] [keyHd] "hDijetMass" keyH keyHf keyHd
      (by decide) (by decide) (by decide) (by decide) (by decide) (by decide)
      (by decide) (by decide)⟩

/-- C9: both mergers open their destination with `"RECREATE"`: on a
completed merge the output artifact holds exactly the newly merged
table or histogram set, independent of whatever content stood at that
destination before the run. -/
theorem c9_recreate_output (fs : String → Option Artifact) (start stop : Nat)
    (store : Nat → Option (List Row)) (files : List (Option (List HKey))) :
    (runMergetuple fs start stop store).map (fun g => g "merged_tuple.root") =
        (mergetuple start stop store).map (fun rows => some (Artifact.table rows)) ∧
      (runMergemacroFn fs files).map (fun g => g "merged_AnalysisResults.root") =
        (mergemacroFn files).map (fun ks => some (Artifact.hists ks)) := by
  constructor
  · cases h : mergetuple start stop store <;> simp [runMergetuple, h, recreate]
  · cases h : mergemacroFn files <;> simp [runMergemacroFn, h, recreate]
